import Mathlib

/-!
Verification of the distributed dTWA-BBGKY sampling/integration/reduction engine
(`dtwa_bbgky_opt.py`, method `Dtwa_BBGKY_System_opt.dtwa_bbgky`).

The embedding models the worker-side arithmetic exactly (machine floats are
modelled as exact rationals; the external collaborators — sampler, ODE solver,
observable evaluator, Weyl-symbol diagnostic, square root — are abstract
function parameters, as the spec treats them as external interfaces).
-/

/-- Modelled from the spec: the coordinating ("root") process rank is imported
from `consts.py`, which is not under src/.  The spec's design notes identify a
single coordinating process; the scatter displacement code
(`all_displacements[root] = 0` as first displacement) fixes it as rank 0. -/
def root : ℕ := 0

/-- Embeds the round-robin chunk loop of `dtwa_bbgky` (lines 137-142):
`iterator = rank; while iterator < n_t: nt_loc += 1; iterator += comm.size`.
`nt_loc n P r` is the number of global trajectory indices `r, r+P, r+2P, ...`
that lie below `n`.  The guard `0 < P` reflects that an MPI communicator always
has `comm.size >= 1`; it also makes the loop terminating. -/
def nt_loc (n P r : ℕ) : ℕ :=
  if h : 0 < P ∧ r < n then nt_loc n P (r + P) + 1 else 0
termination_by n - r
decreasing_by omega

theorem nt_loc_rec {n P r : ℕ} (hP : 0 < P) (hr : r < n) :
    nt_loc n P r = nt_loc n P (r + P) + 1 := by
  rw [nt_loc]; simp [hP, hr]

theorem nt_loc_stop {n P r : ℕ} (h : ¬ (0 < P ∧ r < n)) : nt_loc n P r = 0 := by
  rw [nt_loc]; simp [h]

/-- Loop characterization: the `k`-th round-robin index of worker `r` exists
iff `r + k·P < n`. -/
theorem nt_loc_mem {P : ℕ} (hP : 0 < P) :
    ∀ fuel n r, n - r ≤ fuel → ∀ k : ℕ, (k < nt_loc n P r ↔ r + k * P < n) := by
  intro fuel
  induction fuel with
  | zero =>
      intro n r hle k
      have hnr : ¬ r < n := by omega
      rw [nt_loc_stop (by tauto)]
      constructor
      · omega
      · intro hk; exfalso; omega
  | succ f ih =>
      intro n r hle k
      by_cases hr : r < n
      · rw [nt_loc_rec hP hr]
        cases k with
        | zero => simpa using hr
        | succ k =>
            have := ih n (r + P) (by omega) k
            rw [Nat.add_lt_add_iff_right, this, Nat.succ_mul]
            constructor <;> intro h <;> omega
      · rw [nt_loc_stop (by tauto)]
        constructor
        · omega
        · intro hk; exfalso
          have : r ≤ r + k * P := Nat.le_add_right _ _
          omega

/-- Workers' local counts pairwise differ by at most one. -/
theorem nt_loc_diff_le_one {n P r₁ r₂ : ℕ} (hP : 0 < P)
    (_h1 : r₁ < P) (h2 : r₂ < P) : nt_loc n P r₁ ≤ nt_loc n P r₂ + 1 := by
  by_contra hcon
  push_neg at hcon
  -- `nt_loc n P r₂ + 1 < nt_loc n P r₁`, so index `k = nt_loc n P r₂ + 1` exists on r₁
  have hk1 : r₁ + (nt_loc n P r₂ + 1) * P < n :=
    (nt_loc_mem hP (n - r₁) n r₁ (by omega) _).mp hcon
  have hk2 : ¬ r₂ + nt_loc n P r₂ * P < n := by
    have := (nt_loc_mem hP (n - r₂) n r₂ (by omega) (nt_loc n P r₂)).not
    exact this.mp (by omega)
  push_neg at hk2
  have hexp : (nt_loc n P r₂ + 1) * P = nt_loc n P r₂ * P + P := by ring
  rw [hexp] at hk1
  -- n ≤ r₂ + t  and  r₁ + t + P < n  with t = nt_loc n P r₂ * P forces r₂ > P
  set t := nt_loc n P r₂ * P with ht
  omega

/-- `nt_loc` counts exactly the fiber of residue `r` in `range n`. -/
theorem nt_loc_eq_card {n P r : ℕ} (hP : 0 < P) (hr : r < P) :
    nt_loc n P r = ((Finset.range n).filter (fun i => i % P = r)).card := by
  have himg : (Finset.range (nt_loc n P r)).image (fun k => r + k * P)
      = (Finset.range n).filter (fun i => i % P = r) := by
    ext i
    simp only [Finset.mem_image, Finset.mem_filter, Finset.mem_range]
    constructor
    · rintro ⟨k, hk, rfl⟩
      refine ⟨(nt_loc_mem hP (n - r) n r (by omega) k).mp hk, ?_⟩
      rw [Nat.add_mul_mod_self_right, Nat.mod_eq_of_lt hr]
    · rintro ⟨hin, hmod⟩
      refine ⟨i / P, ?_, ?_⟩
      · rw [nt_loc_mem hP (n - r) n r (by omega) (i / P)]
        have h0 := Nat.div_add_mod i P
        have hc : P * (i / P) = i / P * P := Nat.mul_comm _ _
        omega
      · have h0 := Nat.div_add_mod i P
        have hc : P * (i / P) = i / P * P := Nat.mul_comm _ _
        omega
  have hinj : Function.Injective (fun k => r + k * P) := by
    intro a b hab
    simp only at hab
    have : a * P = b * P := by omega
    exact Nat.eq_of_mul_eq_mul_right hP this
  calc nt_loc n P r = (Finset.range (nt_loc n P r)).card := (Finset.card_range _).symm
    _ = ((Finset.range (nt_loc n P r)).image (fun k => r + k * P)).card :=
        (Finset.card_image_of_injective _ hinj).symm
    _ = _ := by rw [himg]

/-- The local counts over all workers sum to the global trajectory count. -/
theorem sum_nt_loc (n P : ℕ) (hP : 0 < P) :
    ∑ r ∈ Finset.range P, nt_loc n P r = n := by
  have h := Finset.card_eq_sum_card_fiberwise
    (f := fun i => i % P) (s := Finset.range n) (t := Finset.range P)
    (fun x _ => Finset.mem_range.mpr (Nat.mod_lt x hP))
  rw [Finset.card_range] at h
  rw [Finset.sum_congr rfl (fun r hr => nt_loc_eq_card hP (Finset.mem_range.mp hr))]
  exact h.symm

/-- Embeds lines 147-153: the gathered local counts are cumulatively summed and
rolled so that `all_displacements[r]` is the sum of the local counts of all
ranks below `r` (with displacement 0 for the root at rank 0). -/
def all_displacements (n P r : ℕ) : ℕ :=
  ∑ i ∈ Finset.range r, nt_loc n P i

theorem all_displacements_succ (n P r : ℕ) :
    all_displacements n P (r + 1) = all_displacements n P r + nt_loc n P r :=
  Finset.sum_range_succ _ _

/-- Embeds lines 150 and 159-160: the root builds
`all_seeds = np.arange(n_t) + 1 = [1, ..., n_t]` and `Scatterv` hands worker
`r` the contiguous slice of `nt_loc` seeds starting at its displacement. -/
def local_seeds (n P r : ℕ) : List ℕ :=
  (List.range (nt_loc n P r)).map (fun k => all_displacements n P r + k + 1)

/-- Concatenating the scattered slices of the first `Q` workers reproduces the
seed prefix `[1, ..., all_displacements Q]`. -/
theorem flatMap_local_seeds (n P : ℕ) :
    ∀ Q, (List.range Q).flatMap (local_seeds n P)
      = (List.range (all_displacements n P Q)).map (fun i => i + 1) := by
  intro Q
  induction Q with
  | zero => simp [all_displacements]
  | succ q ih =>
      rw [List.range_succ, List.flatMap_append, ih, all_displacements_succ,
        List.range_add, List.map_append, List.map_map]
      simp only [List.flatMap_cons, List.flatMap_nil, List.append_nil]
      congr 1

/-- Embeds `numpy.arange(start, stop, step)` over exact rationals (the float
grid values are modelled exactly): the elements are `start + k * step` for
`0 ≤ k < ⌈(stop - start) / step⌉`, so the stop value is excluded. -/
def np_arange (start stop step : ℚ) : List ℚ :=
  (List.range (Int.toNat ⌈(stop - start) / step⌉)).map
    (fun k : ℕ => start + (k : ℚ) * step)

inductive GridError where
  | divByZero
  | zeroStep
deriving DecidableEq

/-- Embeds lines 126-128 of `dtwa_bbgky`:
`dt = (t_final - t_init)/(n_steps - 1.0); t_output = np.arange(t_init, t_final, dt)`.
With `n_steps = 1` the Python float division raises an unguarded
`ZeroDivisionError` (`divByZero`); a zero `dt` (degenerate range) makes
`np.arange` fail (`zeroStep`). -/
def makeGrid (t_init t_final : ℚ) (n_steps : ℕ) : Except GridError (List ℚ) :=
  if n_steps = 1 then Except.error GridError.divByZero
  else
    let dt := (t_final - t_init) / ((n_steps : ℚ) - 1)
    if dt = 0 then Except.error GridError.zeroStep
    else Except.ok (np_arange t_init t_final dt)

/-- The `time_info` argument: a 3-tuple range, an explicit list of times, or a
malformed scalar. -/
inductive TimeInfo where
  | tuple (t_init t_final : ℚ) (n_steps : ℕ)
  | list (ts : List ℚ)
  | scalar (t : ℚ)
deriving DecidableEq

def TimeInfo.isListType : TimeInfo → Bool
  | TimeInfo.list _ => true
  | _ => false

/-- In `elif type(time_info) is list or np.ndarray:` the right operand of `or`
is the class object `np.ndarray` itself, which is truthy in Python. -/
def ndarrayTruthy : Bool := true

/-- Embeds the condition of the second branch (line 129):
`type(time_info) is list or np.ndarray`. -/
def secondBranchCond (ti : TimeInfo) : Bool :=
  ti.isListType || ndarrayTruthy

/-- The status passed to `exit(...)` in the rejection branches (lines 133, 135). -/
def rejectExitStatus : ℕ := 0

inductive ValidateResult where
  | grid (ts : List ℚ)
  | acceptedVerbatim (ti : TimeInfo)
  | exited (status : ℕ) (messaged : Bool)
  | pyError (e : GridError)
deriving DecidableEq

/-- Embeds the `time_info` dispatch of `dtwa_bbgky` (lines 125-135).  A tuple
builds the grid; any non-tuple falls into the branch guarded by
`type(time_info) is list or np.ndarray`, which binds `t_output = time_info`
verbatim; the remaining branches print (root only) and call `exit(0)`. -/
def validateTimeInfo (rank : ℕ) (ti : TimeInfo) : ValidateResult :=
  match ti with
  | TimeInfo.tuple t0 t1 steps =>
      match makeGrid t0 t1 steps with
      | Except.ok g => ValidateResult.grid g
      | Except.error e => ValidateResult.pyError e
  | _ =>
      if secondBranchCond ti then ValidateResult.acceptedVerbatim ti
      else if rank = root then ValidateResult.exited rejectExitStatus true
      else ValidateResult.exited rejectExitStatus false

/-- The nine observable channels of the output dataset: three single-site
averages and six pairwise correlation sums. -/
inductive Channel where
  | sx | sy | sz
  | sxvar | syvar | szvar | sxyvar | sxzvar | syzvar
deriving DecidableEq

def Channel.isCorr : Channel → Bool
  | Channel.sx | Channel.sy | Channel.sz => false
  | _ => true

/-- Modelled from the spec: the `OutData` container lives in `classes.py`,
which is not under src/.  Per the spec it is a per-channel collection of
accumulated observable values (each channel value stands elementwise for the
per-time-point array, since all accumulation and normalization is
elementwise). -/
abbrev OutData := Channel → ℚ

/-- Floating-point precision tags for trajectory state arrays. -/
inductive Prec where
  | f64
  | f128
deriving DecidableEq

/-- A trajectory (one state vector per grid point) tagged with the precision
of its machine representation; values are modelled exactly. -/
structure TrajStates where
  prec : Prec
  states : List (List ℚ)
deriving DecidableEq

/-- Embeds line 191: `s = np.array(s, dtype="float128")` — the values are
preserved, the representation is widened. -/
def widen (s : TrajStates) : TrajStates :=
  { prec := Prec.f128, states := s.states }

/-- The external collaborators of the engine (spec section 6): the sampler, the
ODE integrator, the observable evaluator (`bbgky_observables`, in `funcs.py`,
not under src/), the squared Weyl-symbol time-derivative diagnostic
(`weyl_hamilt`/`t_deriv`, in `funcs.py`), `np.sqrt`, and the site-count
scaling that `normalize_data` applies to correlation channels (exact
exponents live in `classes.py`, left abstract per the spec). -/
structure Collaborators where
  sample : ℤ → List ℚ × List ℚ
  odeint : List ℚ → List ℚ → List (List ℚ)
  bbgky_observables : List ℚ → TrajStates → OutData
  dhwdt_abs2 : List ℚ → List (List ℚ) → ℚ
  sqrtFn : ℚ → ℚ
  corrScale : ℕ → ℚ

/-- The immutable per-run configuration (spec section 3 RunConfig). -/
structure RunConfig where
  n_t : ℕ
  size : ℕ
  seed_offset : ℤ
  verbose : Bool
  latsize : ℕ

/-- Embeds line 170: `init_s = np.concatenate((s_init_spins, s_init_corrs))`. -/
def init_s (C : Collaborators) (seedEff : ℤ) : List ℚ :=
  (C.sample seedEff).1 ++ (C.sample seedEff).2

/-- The state array handed to `bbgky_observables` (line 192): the solver output
(double precision, line 177-181) after the widening of line 191. -/
def observableArgument (C : Collaborators) (t_output : List ℚ) (seedEff : ℤ) :
    TrajStates :=
  widen { prec := Prec.f64, states := C.odeint (init_s C seedEff) t_output }

/-- One iteration of the trajectory loop (lines 167-193), producing the
per-trajectory observable contribution `localdata`. -/
def runTrajectory (C : Collaborators) (t_output : List ℚ) (seedEff : ℤ) : OutData :=
  C.bbgky_observables t_output (observableArgument C t_output seedEff)

/-- One iteration's verbose diagnostic contribution (lines 185-189), computed
from the solver-native (pre-widening) states. -/
def trajDhw2 (C : Collaborators) (t_output : List ℚ) (seedEff : ℤ) : ℚ :=
  C.dhwdt_abs2 t_output (C.odeint (init_s C seedEff) t_output)

/-- Worker `r`'s `list_of_local_data` (line 162, filled at line 193): one
observable contribution per locally assigned seed, each seed combined with
the seed offset (line 169). -/
def list_of_local_data (C : Collaborators) (cfg : RunConfig) (t_output : List ℚ)
    (r : ℕ) : List OutData :=
  (local_seeds cfg.n_t cfg.size r).map
    (fun sd : ℕ => runTrajectory C t_output ((sd : ℤ) + cfg.seed_offset))

/-- Modelled from the spec: `sum_reduce_all_data` lives in `funcs.py`, not
under src/.  Per spec section 4.3 it sums each worker's local contributions
elementwise and combines all workers' sums in a single global sum-reduction
onto the coordinating process; this is that reduced raw sum. -/
def sum_reduce_all_data (C : Collaborators) (cfg : RunConfig) (t_output : List ℚ) :
    OutData :=
  ((List.range cfg.size).map
    (fun r => (list_of_local_data C cfg t_output r).sum)).sum

/-- Embeds lines 200-204: each worker's local sum of squared Weyl-derivative
contributions, reduced over all workers to the root. -/
def dhwdt_abs2_totals (C : Collaborators) (cfg : RunConfig) (t_output : List ℚ) : ℚ :=
  ((List.range cfg.size).map
    (fun r => ((local_seeds cfg.n_t cfg.size r).map
      (fun sd : ℕ => trajDhw2 C t_output ((sd : ℤ) + cfg.seed_offset))).sum)).sum

/-- Modelled from the spec: `OutData.normalize_data` lives in `classes.py`,
not under src/.  Per spec sections 3 and 4.3: every summed channel is divided
by `n_t`; correlation channels get the additional site-count scaling factor
(abstract `corrScale N`, since the spec leaves the exact exponents to the
physical model). -/
def normalize_data (corrScale : ℕ → ℚ) (d : OutData) (n_t N : ℕ) : OutData :=
  fun c => if c.isCorr then d c / (n_t : ℚ) * corrScale N else d c / (n_t : ℚ)

/-- The run body after a usable time grid is established (lines 137-222): each
rank computes its local contributions, the reduction brings the raw sum to the
root, the root normalizes exactly once and returns the dataset (plus, when
verbose, the RMS energy-drift diagnostic of lines 199-207); every other rank
returns `None`. -/
def runWithGrid (C : Collaborators) (cfg : RunConfig) (t_output : List ℚ)
    (rank : ℕ) : Option OutData × Option ℚ :=
  if rank = root then
    (some (normalize_data C.corrScale (sum_reduce_all_data C cfg t_output)
        cfg.n_t cfg.latsize),
     if cfg.verbose then
       some (C.sqrtFn (dhwdt_abs2_totals C cfg t_output
         / ((cfg.n_t : ℚ) * (cfg.latsize : ℚ) * (cfg.latsize : ℚ))))
     else none)
  else (none, none)

inductive RunExit where
  | exited (status : ℕ) (messaged : Bool)
  | pyError (e : GridError)
  | downstreamTypeError
deriving DecidableEq

/-- The full method `dtwa_bbgky`: dispatch on `time_info`, then run.  A scalar
accepted verbatim by the buggy second branch is passed on as `t_output` and
makes the external integrator fail downstream (`downstreamTypeError`). -/
def dtwa_bbgky (C : Collaborators) (cfg : RunConfig) (ti : TimeInfo) (rank : ℕ) :
    Except RunExit (Option OutData × Option ℚ) :=
  match validateTimeInfo rank ti with
  | ValidateResult.grid g => Except.ok (runWithGrid C cfg g rank)
  | ValidateResult.acceptedVerbatim (TimeInfo.list ts) =>
      Except.ok (runWithGrid C cfg ts rank)
  | ValidateResult.acceptedVerbatim _ => Except.error RunExit.downstreamTypeError
  | ValidateResult.exited s m => Except.error (RunExit.exited s m)
  | ValidateResult.pyError e => Except.error (RunExit.pyError e)

theorem sum_map_flatMap {M : Type} [AddCommMonoid M] (l : List ℕ)
    (g : ℕ → List ℕ) (f : ℕ → M) :
    ((l.flatMap g).map f).sum = (l.map (fun r => ((g r).map f).sum)).sum := by
  induction l with
  | nil => simp
  | cons a l ih => simp [List.flatMap_cons, ih]

/-- Summing any per-seed contribution over every worker's scattered slice
equals summing it serially over the seeds `1, ..., n`. -/
theorem globalTrajSum_eq {M : Type} [AddCommMonoid M] (f : ℕ → M) (n P : ℕ)
    (hP : 0 < P) :
    ((List.range P).map (fun r => ((local_seeds n P r).map f).sum)).sum
      = ((List.range n).map (fun i => f (i + 1))).sum := by
  rw [← sum_map_flatMap, flatMap_local_seeds, List.map_map]
  have hd : all_displacements n P P = n := sum_nt_loc n P hP
  rw [hd]
  rfl

/-- A concrete instantiation of the external collaborators, used to exercise
the theorems on concrete runs. -/
def trivialC : Collaborators where
  sample := fun _ => ([1], [0])
  odeint := fun s ts => ts.map (fun _ => s)
  bbgky_observables := fun _ _ => fun _ => 1
  dhwdt_abs2 := fun _ _ => 0
  sqrtFn := fun q => q
  corrScale := fun N => (N : ℚ)

/-- A concrete run configuration matching the spec's `n_t = 8`, `P = 3`
scenario. -/
def cfgW : RunConfig where
  n_t := 8
  size := 3
  seed_offset := 0
  verbose := true
  latsize := 2

/-- C1: for every global trajectory count `n_t ≥ 1` and worker count `P ≥ 1`,
the round-robin partition (worker `r` counts indices `r, r+P, r+2P, ...` below
`n_t`) yields local counts that sum to `n_t` and pairwise differ by at most
one.  Determinism for given `(n_t, P)` is inherent: `nt_loc` is a function of
`(n_t, P, rank)` alone. -/
theorem roundRobin_partition (n_t P : ℕ) (_hn : 1 ≤ n_t) (hP : 1 ≤ P) :
    (∑ r ∈ Finset.range P, nt_loc n_t P r) = n_t ∧
    (∀ r₁ ∈ Finset.range P, ∀ r₂ ∈ Finset.range P,
      nt_loc n_t P r₁ ≤ nt_loc n_t P r₂ + 1) := by
  refine ⟨sum_nt_loc n_t P hP, ?_⟩
  intro r₁ h1 r₂ h2
  exact nt_loc_diff_le_one hP (Finset.mem_range.mp h1) (Finset.mem_range.mp h2)

/-- C1 witness: the `n_t = 8`, `P = 3` scenario. -/
theorem roundRobin_partition_w :
    (∑ r ∈ Finset.range 3, nt_loc 8 3 r) = 8 ∧
    (∀ r₁ ∈ Finset.range 3, ∀ r₂ ∈ Finset.range 3,
      nt_loc 8 3 r₁ ≤ nt_loc 8 3 r₂ + 1) :=
  roundRobin_partition 8 3 (by decide) (by decide)

/-- C2: the variable-length scatter hands each worker the contiguous slice of
`nt_loc` seeds starting at its displacement, and concatenating all workers'
slices yields exactly the seed list `[1, ..., n_t]` — no duplicates, no
omissions, independent of `P`. -/
theorem seed_scatter_exact (n_t P : ℕ) (_hn : 1 ≤ n_t) (hP : 1 ≤ P) :
    (List.range P).flatMap (local_seeds n_t P)
      = (List.range n_t).map (fun i => i + 1) ∧
    ((List.range P).flatMap (local_seeds n_t P)).Nodup ∧
    (∀ r, local_seeds n_t P r
      = (List.range (nt_loc n_t P r)).map
          (fun k => all_displacements n_t P r + k + 1)) := by
  have hj : (List.range P).flatMap (local_seeds n_t P)
      = (List.range n_t).map (fun i => i + 1) := by
    rw [flatMap_local_seeds]
    unfold all_displacements
    rw [sum_nt_loc n_t P hP]
  refine ⟨hj, ?_, fun r => rfl⟩
  rw [hj]
  exact (List.nodup_range n_t).map (fun a b hab => by omega)

/-- C2 witness: the `n_t = 8`, `P = 3` scenario. -/
theorem seed_scatter_exact_w :
    (List.range 3).flatMap (local_seeds 8 3)
      = (List.range 8).map (fun i => i + 1) ∧
    ((List.range 3).flatMap (local_seeds 8 3)).Nodup ∧
    (∀ r, local_seeds 8 3 r
      = (List.range (nt_loc 8 3 r)).map
          (fun k => all_displacements 8 3 r + k + 1)) :=
  seed_scatter_exact 8 3 (by decide) (by decide)

/-- C3: a `(t0, t1, steps)` tuple produces the evenly spaced points
`t0 + k·dt` for `k < steps - 1` with `dt = (t1 - t0)/(steps - 1)`, and every
grid point lies strictly below the excluded upper bound `t1`. -/
theorem timeGrid_from_tuple (t0 t1 : ℚ) (steps : ℕ) (hs : 2 ≤ steps)
    (hlt : t0 < t1) :
    makeGrid t0 t1 steps
      = Except.ok ((List.range (steps - 1)).map
          (fun k : ℕ => t0 + (k : ℚ) * ((t1 - t0) / ((steps : ℚ) - 1)))) ∧
    (∀ x ∈ (List.range (steps - 1)).map
        (fun k : ℕ => t0 + (k : ℚ) * ((t1 - t0) / ((steps : ℚ) - 1))), x < t1) := by
  have hne : steps ≠ 1 := by omega
  have hsQ : (1 : ℚ) ≤ (steps : ℚ) - 1 := by
    have : (2 : ℚ) ≤ (steps : ℚ) := by exact_mod_cast hs
    linarith
  have hden : (0 : ℚ) < (steps : ℚ) - 1 := by linarith
  have hdt : (0 : ℚ) < (t1 - t0) / ((steps : ℚ) - 1) :=
    div_pos (by linarith) hden
  constructor
  · unfold makeGrid
    rw [if_neg hne, if_neg (ne_of_gt hdt)]
    unfold np_arange
    have hquot : (t1 - t0) / ((t1 - t0) / ((steps : ℚ) - 1)) = (steps : ℚ) - 1 := by
      rw [div_div_eq_mul_div, mul_comm, mul_div_assoc,
        div_self (show t1 - t0 ≠ 0 by linarith), mul_one]
    have hcast : ((steps - 1 : ℕ) : ℚ) = (steps : ℚ) - 1 :=
      by exact_mod_cast Nat.cast_sub (show 1 ≤ steps by omega)
    have hceil : (⌈(t1 - t0) / ((t1 - t0) / ((steps : ℚ) - 1))⌉).toNat
        = steps - 1 := by
      rw [hquot, ← hcast, Int.ceil_natCast, Int.toNat_natCast]
    rw [hceil]
  · intro x hx
    simp only [List.mem_map, List.mem_range] at hx
    obtain ⟨k, hk, rfl⟩ := hx
    have hkQ : (k : ℚ) < (steps : ℚ) - 1 := by
      have h1 : (k : ℚ) < ((steps - 1 : ℕ) : ℚ) := by exact_mod_cast hk
      have h2 : ((steps - 1 : ℕ) : ℚ) = (steps : ℚ) - 1 :=
        by exact_mod_cast Nat.cast_sub (show 1 ≤ steps by omega)
      linarith
    have hmul : (k : ℚ) * ((t1 - t0) / ((steps : ℚ) - 1))
        < ((steps : ℚ) - 1) * ((t1 - t0) / ((steps : ℚ) - 1)) :=
      mul_lt_mul_of_pos_right hkQ hdt
    have hfull : ((steps : ℚ) - 1) * ((t1 - t0) / ((steps : ℚ) - 1)) = t1 - t0 :=
      mul_div_cancel₀ _ (ne_of_gt hden)
    rw [hfull] at hmul
    linarith

/-- C3 witness: the `(0, 1, 5)` scenario yields the grid `[0, 1/4, 1/2, 3/4]`,
with the upper bound 1 excluded. -/
theorem timeGrid_from_tuple_w :
    makeGrid 0 1 5 = Except.ok [0, 1/4, 1/2, 3/4] := by
  rw [(timeGrid_from_tuple 0 1 5 (by norm_num) (by norm_num)).1]
  congr 1
  norm_num [List.range_succ]

/-- C4 (code bug evaluated at the failing input): a scalar `time_info` is NOT
rejected.  The guard `type(time_info) is list or np.ndarray` parses as
`(type(time_info) is list) or np.ndarray`, whose right operand is the truthy
class object `np.ndarray`, so the branch accepts any non-tuple verbatim as
`t_output` on every rank; the rejection branches are dead code, and even they
would call `exit(0)` — a zero exit status. -/
theorem scalar_timeInfo_accepted :
    validateTimeInfo 0 (TimeInfo.scalar (1/2))
      = ValidateResult.acceptedVerbatim (TimeInfo.scalar (1/2)) ∧
    validateTimeInfo 1 (TimeInfo.scalar (1/2))
      = ValidateResult.acceptedVerbatim (TimeInfo.scalar (1/2)) ∧
    (∀ ti : TimeInfo, secondBranchCond ti = true) ∧
    rejectExitStatus = 0 := by
  refine ⟨rfl, rfl, ?_, rfl⟩
  intro ti
  simp [secondBranchCond, ndarrayTruthy]

/-- C10 counterexample: a tuple input with `steps = 2` does build a time grid
of length 1, so "no time grid of length 1 can ever be built from a tuple
input" is false. -/
theorem lengthOne_grid_from_tuple :
    makeGrid 0 1 2 = Except.ok [0] ∧ ([(0 : ℚ)] : List ℚ).length = 1 := by
  refine ⟨?_, rfl⟩
  norm_num [makeGrid, np_arange, List.range_succ]

/-- C10 (amended): a `steps = 1` tuple always hits the unguarded division by
zero in `dt = (t_final - t_init)/(n_steps - 1.0)`, so no time grid at all can
be built from a tuple with `steps = 1`; length-1 grids do arise from tuples
with `steps = 2`. -/
theorem stepsOne_divByZero :
    (∀ t0 t1 : ℚ, makeGrid t0 t1 1 = Except.error GridError.divByZero) ∧
    makeGrid 0 1 2 = Except.ok [0] := by
  constructor
  · intro t0 t1
    unfold makeGrid
    simp
  · norm_num [makeGrid, np_arange, List.range_succ]

/-- C5: whenever a run completes successfully, the coordinating (root) process
returns the completed dataset and every other rank returns `None`. -/
theorem return_contract (C : Collaborators) (cfg : RunConfig) (ti : TimeInfo)
    (rank : ℕ) (res : Option OutData × Option ℚ)
    (hok : dtwa_bbgky C cfg ti rank = Except.ok res) :
    (rank = root → res.1.isSome = true) ∧ (rank ≠ root → res.1 = none) := by
  unfold dtwa_bbgky at hok
  cases hval : validateTimeInfo rank ti with
  | grid g =>
      rw [hval] at hok
      have hres : res = runWithGrid C cfg g rank := by
        simpa using hok.symm
      subst hres
      constructor
      · intro h; simp [runWithGrid, h]
      · intro h; simp [runWithGrid, h]
  | acceptedVerbatim ti2 =>
      rw [hval] at hok
      cases ti2 with
      | list ts =>
          have hres : res = runWithGrid C cfg ts rank := by
            simpa using hok.symm
          subst hres
          constructor
          · intro h; simp [runWithGrid, h]
          · intro h; simp [runWithGrid, h]
      | tuple a b c => simp at hok
      | scalar t => simp at hok
  | exited s m =>
      rw [hval] at hok
      simp at hok
  | pyError e =>
      rw [hval] at hok
      simp at hok

/-- C5 witness: a concrete successful run on rank 1 returns no data. -/
theorem return_contract_w :
    (runWithGrid trivialC cfgW [0] 1).1 = none :=
  (return_contract trivialC cfgW (TimeInfo.list [0]) 1
    (runWithGrid trivialC cfgW [0] 1) rfl).2 (by decide)

/-- C6: the dataset returned on the root is exactly one application of
`normalize_data` to the globally reduced raw sum — every channel divided by
`n_t`, correlation channels additionally scaled by the site-count factor —
and no other rank produces (or normalizes) a dataset. -/
theorem normalization_once (C : Collaborators) (cfg : RunConfig)
    (t_output : List ℚ) :
    (runWithGrid C cfg t_output root).1
      = some (normalize_data C.corrScale (sum_reduce_all_data C cfg t_output)
          cfg.n_t cfg.latsize) ∧
    (∀ c : Channel,
      normalize_data C.corrScale (sum_reduce_all_data C cfg t_output)
          cfg.n_t cfg.latsize c
        = if c.isCorr
          then sum_reduce_all_data C cfg t_output c / (cfg.n_t : ℚ)
            * C.corrScale cfg.latsize
          else sum_reduce_all_data C cfg t_output c / (cfg.n_t : ℚ)) ∧
    (∀ rank, rank ≠ root → (runWithGrid C cfg t_output rank).1 = none) := by
  refine ⟨by simp [runWithGrid], fun c => rfl, fun rank h => by simp [runWithGrid, h]⟩

/-- C6 witness: concrete run; rank 2 produces no dataset while the root's
dataset is the single normalization of the reduced sum. -/
theorem normalization_once_w :
    (runWithGrid trivialC cfgW [0] root).1
      = some (normalize_data trivialC.corrScale
          (sum_reduce_all_data trivialC cfgW [0]) cfgW.n_t cfgW.latsize) ∧
    (runWithGrid trivialC cfgW [0] 2).1 = none :=
  ⟨(normalization_once trivialC cfgW [0]).1,
   (normalization_once trivialC cfgW [0]).2.2 2 (by decide)⟩


/-- For any worker count `P ≥ 1`, the reduced raw observable sum equals the
serial sum over seeds `1, ..., n_t` — the partitioning leaves no trace. -/
theorem sum_reduce_serial (C : Collaborators) (cfg : RunConfig) (t_output : List ℚ)
    (P : ℕ) (hPpos : 0 < P) :
    sum_reduce_all_data C { cfg with size := P } t_output
      = ((List.range cfg.n_t).map
          (fun i : ℕ => runTrajectory C t_output (((i : ℤ) + 1)
            + cfg.seed_offset))).sum := by
  have h0 : sum_reduce_all_data C { cfg with size := P } t_output
      = ((List.range P).map (fun r => ((local_seeds cfg.n_t P r).map
          (fun sd : ℕ => runTrajectory C t_output ((sd : ℤ)
            + cfg.seed_offset))).sum)).sum := rfl
  rw [h0, globalTrajSum_eq
    (fun sd : ℕ => runTrajectory C t_output ((sd : ℤ) + cfg.seed_offset))
    cfg.n_t P hPpos]
  congr 1

/-- For any worker count `P ≥ 1`, the reduced squared-derivative diagnostic sum
equals the serial sum over seeds `1, ..., n_t`. -/
theorem dhw_reduce_serial (C : Collaborators) (cfg : RunConfig) (t_output : List ℚ)
    (P : ℕ) (hPpos : 0 < P) :
    dhwdt_abs2_totals C { cfg with size := P } t_output
      = ((List.range cfg.n_t).map
          (fun i : ℕ => trajDhw2 C t_output (((i : ℤ) + 1)
            + cfg.seed_offset))).sum := by
  have h0 : dhwdt_abs2_totals C { cfg with size := P } t_output
      = ((List.range P).map (fun r => ((local_seeds cfg.n_t P r).map
          (fun sd : ℕ => trajDhw2 C t_output ((sd : ℤ)
            + cfg.seed_offset))).sum)).sum := rfl
  rw [h0, globalTrajSum_eq
    (fun sd : ℕ => trajDhw2 C t_output ((sd : ℤ) + cfg.seed_offset))
    cfg.n_t P hPpos]
  congr 1

/-- C7: for fixed `n_t`, seed offset and seeds-to-sampler mapping, the
normalized dataset (and the diagnostic) the root returns is identical for `P`
workers and for a single worker, and the reduced raw sum equals the serial sum
over all `n_t` trajectories with the same seeds. -/
theorem workerCount_independence (C : Collaborators) (cfg : RunConfig)
    (t_output : List ℚ) (hP : 1 ≤ cfg.size) :
    runWithGrid C cfg t_output root
      = runWithGrid C { cfg with size := 1 } t_output root ∧
    sum_reduce_all_data C cfg t_output
      = ((List.range cfg.n_t).map
          (fun i : ℕ => runTrajectory C t_output (((i : ℤ) + 1)
            + cfg.seed_offset))).sum := by
  have hA : sum_reduce_all_data C cfg t_output
      = ((List.range cfg.n_t).map
          (fun i : ℕ => runTrajectory C t_output (((i : ℤ) + 1)
            + cfg.seed_offset))).sum :=
    sum_reduce_serial C cfg t_output cfg.size hP
  have hB := sum_reduce_serial C cfg t_output 1 (by omega)
  have hC : dhwdt_abs2_totals C cfg t_output
      = ((List.range cfg.n_t).map
          (fun i : ℕ => trajDhw2 C t_output (((i : ℤ) + 1)
            + cfg.seed_offset))).sum :=
    dhw_reduce_serial C cfg t_output cfg.size hP
  have hD := dhw_reduce_serial C cfg t_output 1 (by omega)
  have e1 : sum_reduce_all_data C cfg t_output
      = sum_reduce_all_data C { cfg with size := 1 } t_output := hA.trans hB.symm
  have e2 : dhwdt_abs2_totals C cfg t_output
      = dhwdt_abs2_totals C { cfg with size := 1 } t_output := hC.trans hD.symm
  refine ⟨?_, hA⟩
  unfold runWithGrid
  rw [if_pos (rfl : root = root), if_pos (rfl : root = root), e1, e2]

/-- C7 witness: the `n_t = 8`, `P = 3` scenario. -/
theorem workerCount_independence_w :
    runWithGrid trivialC cfgW [0] root
      = runWithGrid trivialC { cfgW with size := 1 } [0] root ∧
    sum_reduce_all_data trivialC cfgW [0]
      = ((List.range cfgW.n_t).map
          (fun i : ℕ => runTrajectory trivialC [0] (((i : ℤ) + 1)
            + cfgW.seed_offset))).sum :=
  workerCount_independence trivialC cfgW [0] (by decide)

/-- C8: when verbose, the root's diagnostic is the square root of the
independently reduced squared-derivative total divided by `n_t · N²`; the
diagnostic reduction is its own second sum-reduction and never changes the
primary dataset. -/
theorem verbose_diagnostic (C : Collaborators) (cfg : RunConfig)
    (t_output : List ℚ) :
    (cfg.verbose = true →
      (runWithGrid C cfg t_output root).2
        = some (C.sqrtFn (dhwdt_abs2_totals C cfg t_output
            / ((cfg.n_t : ℚ) * (cfg.latsize : ℚ) * (cfg.latsize : ℚ))))) ∧
    (∀ rank : ℕ, (runWithGrid C { cfg with verbose := true } t_output rank).1
        = (runWithGrid C { cfg with verbose := false } t_output rank).1) ∧
    dhwdt_abs2_totals C cfg t_output
      = ((List.range cfg.size).map
          (fun r => ((local_seeds cfg.n_t cfg.size r).map
            (fun sd : ℕ => trajDhw2 C t_output ((sd : ℤ)
              + cfg.seed_offset))).sum)).sum := by
  refine ⟨fun hv => ?_, fun rank => ?_, rfl⟩
  · simp [runWithGrid, hv]
  · by_cases h : rank = root
    · subst h
      rfl
    · simp [runWithGrid, h]

/-- C8 witness: concrete verbose run. -/
theorem verbose_diagnostic_w :
    (runWithGrid trivialC cfgW [0] root).2
      = some (trivialC.sqrtFn (dhwdt_abs2_totals trivialC cfgW [0]
          / ((cfgW.n_t : ℚ) * (cfgW.latsize : ℚ) * (cfgW.latsize : ℚ)))) :=
  (verbose_diagnostic trivialC cfgW [0]).1 rfl

/-- C9: the state array handed to `bbgky_observables` is always the widened
(f128) copy of the solver's double-precision trajectory, with the state values
unchanged by the widening. -/
theorem precision_widening (C : Collaborators) (t_output : List ℚ)
    (seedEff : ℤ) :
    (observableArgument C t_output seedEff).prec = Prec.f128 ∧
    (observableArgument C t_output seedEff).states
      = C.odeint (init_s C seedEff) t_output ∧
    runTrajectory C t_output seedEff
      = C.bbgky_observables t_output (observableArgument C t_output seedEff) :=
  ⟨rfl, rfl, rfl⟩
